import Mathlib

/-!
Verification development for the LPC11Uxx hardware-RNG statistical
health-test engine of the hardware-bitcoin-wallet repository.

The constants below are transcribed from `lpc11uxx/statistics.h`.  The
engine itself (`statistics.c`: histogram builder, moment engine, spectral
engine, decision engine) is not part of the available sources, so those
operations are modelled from the specification; each such definition's
doc comment says so explicitly.  All fixed-point quantities are modelled
as exact rationals.
-/

/-- Number of histogram bins (`HISTOGRAM_NUM_BINS` in statistics.h): one bin
per possible 10-bit ADC value, so 2 ^ 10 = 1024. -/
def HISTOGRAM_NUM_BINS : Nat := 1024

/-- Number of bits of storage allocated to each histogram bin
(`BITS_PER_HISTOGRAM_BIN` in statistics.h). -/
def BITS_PER_HISTOGRAM_BIN : Nat := 11

/-- Number of samples taken before running the statistical tests
(`SAMPLE_COUNT` in statistics.h). -/
def SAMPLE_COUNT : Nat := 4096

/-- Scale-down factor applied to sample values (`SAMPLE_SCALE_DOWN` in
statistics.h). -/
def SAMPLE_SCALE_DOWN : Nat := 64

/-- Nominal mean, in ADC output number (`STATTEST_CENTRAL_MEAN`). -/
def STATTEST_CENTRAL_MEAN : ℚ := 311.47

/-- Minimum acceptable mean (`STATTEST_MIN_MEAN` in statistics.h),
transcribing the source expression `0.968 * STATTEST_CENTRAL_MEAN - 65.0 - 4.0`. -/
def STATTEST_MIN_MEAN : ℚ := 0.968 * STATTEST_CENTRAL_MEAN - 65.0 - 4.0

/-- Maximum acceptable mean (`STATTEST_MAX_MEAN` in statistics.h),
transcribing `1.032 * STATTEST_CENTRAL_MEAN + 65.0 + 4.0`. -/
def STATTEST_MAX_MEAN : ℚ := 1.032 * STATTEST_CENTRAL_MEAN + 65.0 + 4.0

/-- Nominal variance (`STATTEST_CENTRAL_VARIANCE` in statistics.h). -/
def STATTEST_CENTRAL_VARIANCE : ℚ := 1201.7

/-- Minimum acceptable variance (`STATTEST_MIN_VARIANCE` in statistics.h),
transcribing `0.846 * 0.817 * 0.805 * 0.988 * STATTEST_CENTRAL_VARIANCE`. -/
def STATTEST_MIN_VARIANCE : ℚ := 0.846 * 0.817 * 0.805 * 0.988 * STATTEST_CENTRAL_VARIANCE

/-- Maximum acceptable variance (`STATTEST_MAX_VARIANCE` in statistics.h),
transcribing `1.154 * 1.224 * 1.195 * 1.012 * STATTEST_CENTRAL_VARIANCE`. -/
def STATTEST_MAX_VARIANCE : ℚ := 1.154 * 1.224 * 1.195 * 1.012 * STATTEST_CENTRAL_VARIANCE

/-- Maximum acceptable skewness "in either the positive or negative
direction" (`STATTEST_MAX_SKEWNESS` in statistics.h). -/
def STATTEST_MAX_SKEWNESS : ℚ := 0.237

/-- Minimum acceptable kurtosis (`STATTEST_MIN_KURTOSIS` in statistics.h). -/
def STATTEST_MIN_KURTOSIS : ℚ := -0.48

/-- Maximum acceptable kurtosis (`STATTEST_MAX_KURTOSIS` in statistics.h). -/
def STATTEST_MAX_KURTOSIS : ℚ := 0.65

/-- Relative power-spectral-density threshold defining the bandwidth
(`PSD_BANDWIDTH_THRESHOLD` in statistics.h). -/
def PSD_BANDWIDTH_THRESHOLD : ℚ := 0.0329

/-- Number of consecutive below-threshold PSD bins required before a bin is
considered a band edge (`PSD_THRESHOLD_REPETITIONS` in statistics.h). -/
def PSD_THRESHOLD_REPETITIONS : Nat := 5

/-- Minimum acceptable peak frequency, as a fraction of the sampling rate
(`PSD_MIN_PEAK` in statistics.h). -/
def PSD_MIN_PEAK : ℚ := 0.0227

/-- Maximum acceptable peak frequency, as a fraction of the sampling rate
(`PSD_MAX_PEAK` in statistics.h). -/
def PSD_MAX_PEAK : ℚ := 0.408

/-- Minimum acceptable bandwidth, as a fraction of the sampling rate
(`PSD_MIN_BANDWIDTH` in statistics.h). -/
def PSD_MIN_BANDWIDTH : ℚ := 0.0726

/-- Modelled from the spec: statistics.c (absent from the sources) applies
the skewness acceptance test with the single bound `STATTEST_MAX_SKEWNESS`
"in either the positive or negative direction" (statistics.h), i.e. the
window is [-STATTEST_MAX_SKEWNESS, STATTEST_MAX_SKEWNESS]. -/
def skewnessWindowPass (x : ℚ) : Bool :=
  decide (-STATTEST_MAX_SKEWNESS ≤ x ∧ x ≤ STATTEST_MAX_SKEWNESS)

/-- Modelled from the spec: statistics.c (absent from the sources) applies
the kurtosis acceptance test with the window
[STATTEST_MIN_KURTOSIS, STATTEST_MAX_KURTOSIS]. -/
def kurtosisWindowPass (x : ℚ) : Bool :=
  decide (STATTEST_MIN_KURTOSIS ≤ x ∧ x ≤ STATTEST_MAX_KURTOSIS)

/-- Modelled from the spec: the Histogram Builder of statistics.c (absent
from the sources) increments, for each raw sample, the histogram bin holding
that sample's ADC value (statistics.h sizes the histogram so that every
possible 10-bit ADC value has a separate bin). -/
def incBin (h : Nat → Nat) (b : Nat) : Nat → Nat :=
  fun i => if i = b then h i + 1 else h i

/-- Modelled from the spec: ingestion of a whole batch of raw samples into an
initially empty histogram, one bin increment per sample. -/
def buildHistogram (batch : List Nat) : Nat → Nat :=
  batch.foldl incBin fun _ => 0

/-- Maximum representable count of one histogram bin,
2 ^ BITS_PER_HISTOGRAM_BIN - 1 = 2047. -/
def maxBinCount : Nat := 2 ^ BITS_PER_HISTOGRAM_BIN - 1

/-- Modelled from the spec: the overflow-checked Histogram Builder of
statistics.c (absent from the sources).  An increment that would push a bin
past maxBinCount reports a fault (none) aborting the run; the count is never
silently wrapped. -/
def buildChecked (batch : List Nat) (h : Nat → Nat) : Option (Nat → Nat) :=
  match batch with
  | [] => some h
  | x :: xs => if maxBinCount ≤ h x then none else buildChecked xs (incBin h x)

/-- Modelled from the spec: checked ingestion of a whole batch starting from
an empty histogram. -/
def buildHistogramChecked (batch : List Nat) : Option (Nat → Nat) :=
  buildChecked batch fun _ => 0

/-- Sum of all HISTOGRAM_NUM_BINS bin counts of a histogram. -/
def histSum (h : Nat → Nat) : Nat :=
  ∑ b ∈ Finset.range HISTOGRAM_NUM_BINS, h b

/-- Modelled from the spec: the Moment Statistics Engine of statistics.c
(absent from the sources) makes a single pass over the histogram bins,
accumulating the total count N and the power sums Σ count·x^k (x = bin
index) needed for the four moments. -/
structure RawSums where
  n : ℚ
  s1 : ℚ
  s2 : ℚ
  s3 : ℚ
  s4 : ℚ

/-- Modelled from the spec: one accumulation step of the single pass, adding
histogram bin x with its count to the running sums. -/
def accumBin (acc : RawSums) (h : Nat → Nat) (x : Nat) : RawSums :=
  ⟨acc.n + (h x : ℚ),
   acc.s1 + (h x : ℚ) * (x : ℚ),
   acc.s2 + (h x : ℚ) * (x : ℚ) ^ 2,
   acc.s3 + (h x : ℚ) * (x : ℚ) ^ 3,
   acc.s4 + (h x : ℚ) * (x : ℚ) ^ 4⟩

/-- Modelled from the spec: the single accumulation pass over all
HISTOGRAM_NUM_BINS bins. -/
def rawSums (h : Nat → Nat) : RawSums :=
  (List.range HISTOGRAM_NUM_BINS).foldl (fun acc x => accumBin acc h x) ⟨0, 0, 0, 0, 0⟩

/-- Total count N of a histogram, as a rational: the sum of all bin counts. -/
def histTotal (h : Nat → Nat) : ℚ :=
  ∑ x ∈ Finset.range HISTOGRAM_NUM_BINS, (h x : ℚ)

/-- Power sum Σ count·x^k over the histogram bins, as a rational. -/
def binSum (h : Nat → Nat) (k : Nat) : ℚ :=
  ∑ x ∈ Finset.range HISTOGRAM_NUM_BINS, (h x : ℚ) * (x : ℚ) ^ k

/-- Modelled from the spec: mean = Σx / N, derived from the accumulated
sums. -/
def momMean (h : Nat → Nat) : ℚ := (rawSums h).s1 / (rawSums h).n

/-- Modelled from the spec: variance = Σx²/N − mean², derived from the
accumulated sums. -/
def momVariance (h : Nat → Nat) : ℚ :=
  (rawSums h).s2 / (rawSums h).n - momMean h ^ 2

/-- Modelled from the spec: the numerator Σx³/N − 3·mean·Σx²/N + 2·mean³ of
the standardised skewness (the third central moment); the engine then
divides it by variance^(3/2). -/
def momSkewNum (h : Nat → Nat) : ℚ :=
  (rawSums h).s3 / (rawSums h).n
    - 3 * momMean h * ((rawSums h).s2 / (rawSums h).n)
    + 2 * momMean h ^ 3

/-- Modelled from the spec: excess kurtosis =
(Σx⁴/N − 4·mean·Σx³/N + 6·mean²·Σx²/N − 3·mean⁴) / variance² − 3, derived
from the accumulated sums. -/
def momKurtosis (h : Nat → Nat) : ℚ :=
  ((rawSums h).s4 / (rawSums h).n
    - 4 * momMean h * ((rawSums h).s3 / (rawSums h).n)
    + 6 * momMean h ^ 2 * ((rawSums h).s2 / (rawSums h).n)
    - 3 * momMean h ^ 4) / momVariance h ^ 2 - 3

/-- Modelled from the spec: the degenerate-variance guard of statistics.c;
when variance is zero the skewness sub-test is reported as failed without
performing the division by variance^(3/2); otherwise the window test
|skewness| ≤ STATTEST_MAX_SKEWNESS is applied, stated square-free as
skewNum² ≤ STATTEST_MAX_SKEWNESS²·variance³ (equivalent for positive
variance, and computable in exact rationals). -/
def skewnessPassB (variance skewNum : ℚ) : Bool :=
  if variance = 0 then false
  else decide (skewNum ^ 2 ≤ STATTEST_MAX_SKEWNESS ^ 2 * variance ^ 3)

/-- Modelled from the spec: the degenerate-variance guard for kurtosis; when
variance is zero the sub-test is reported as failed without dividing by
variance²; otherwise the kurtosis acceptance window is applied. -/
def kurtosisPassB (variance kurt : ℚ) : Bool :=
  if variance = 0 then false else kurtosisWindowPass kurt

/-- Histogram with all n samples in a single bin b. -/
def singleBin (b n : Nat) : Nat → Nat :=
  fun i => if i = b then n else 0

/-- Modelled from the spec: a PSD bin is below the bandwidth threshold when
its magnitude is smaller than PSD_BANDWIDTH_THRESHOLD times the peak
value. -/
def belowThresholdB (psd : Nat → ℚ) (peakVal : ℚ) (i : Nat) : Bool :=
  decide (psd i < PSD_BANDWIDTH_THRESHOLD * peakVal)

/-- Modelled from the spec: bins i, i+1, ..., i+k-1 are all below threshold
(a run of k consecutive below-threshold bins starting at i). -/
def runBelow (s : Nat → Bool) : Nat → Nat → Bool
  | _, 0 => true
  | i, k + 1 => s i && runBelow s (i + 1) k

/-- Modelled from the spec: the outward walk of the bandwidth edge detector
of statistics.c (absent from the sources); fuel-indexed search for the first
bin starting a run of PSD_THRESHOLD_REPETITIONS below-threshold bins. -/
def findEdgeAux (s : Nat → Bool) : Nat → Nat → Nat
  | 0, i => i
  | fuel + 1, i =>
    if runBelow s i PSD_THRESHOLD_REPETITIONS then i
    else findEdgeAux s fuel (i + 1)

/-- Modelled from the spec: the bandwidth walk from bin start towards bin
bound; the edge is the first bin in [start, bound) starting a run of
PSD_THRESHOLD_REPETITIONS consecutive below-threshold bins, clamped to
bound when no such run exists before the spectrum boundary. -/
def findEdge (s : Nat → Bool) (start bound : Nat) : Nat :=
  findEdgeAux s (bound - start) start

/-- Modelled from the spec: index of the maximum-magnitude PSD bin among
bins 0..numBins-1 (the first maximal index wins ties). -/
def peakIndex (psd : Nat → ℚ) (numBins : Nat) : Nat :=
  (List.range numBins).foldl (fun best i => if psd best < psd i then i else best) 0

/-- Frequency fraction of PSD bin i, for a spectrum of numBins bins covering
frequencies from 0 to half the sampling rate. -/
def freqFrac (i numBins : Nat) : ℚ := (i : ℚ) / (2 * numBins)

/-- Modelled from the spec: the peak acceptance window test on a frequency
fraction, the closed interval [PSD_MIN_PEAK, PSD_MAX_PEAK]. -/
def peakWindowPass (f : ℚ) : Bool :=
  decide (PSD_MIN_PEAK ≤ f ∧ f ≤ PSD_MAX_PEAK)

/-- Modelled from the spec: the peak sub-test of statistics.c (absent from
the sources): locate the maximum-magnitude bin, convert its index to a
frequency fraction, test the acceptance window. -/
def peakTest (psd : Nat → ℚ) (numBins : Nat) : Bool :=
  peakWindowPass (freqFrac (peakIndex psd numBins) numBins)

/-- Modelled from the spec: the statistics measured for one completed sample
batch, as consumed by the Decision Engine: the four moment statistics
(skewness through its numerator plus the variance), the spectral peak
frequency fraction, whether the bandwidth walk found a genuine lower band
edge before the spectrum boundary, and the bandwidth fraction. -/
structure Measured where
  mean : ℚ
  variance : ℚ
  skewNum : ℚ
  kurtosis : ℚ
  peakFrac : ℚ
  lowerEdgeFound : Bool
  bandwidthFrac : ℚ

/-- A Verdict holds one pass/fail flag per sub-test. -/
structure Verdict where
  meanPass : Bool
  variancePass : Bool
  skewnessPass : Bool
  kurtosisPass : Bool
  peakPass : Bool
  lowerEdgePass : Bool
  bandwidthPass : Bool

/-- Modelled from the spec: the mean acceptance window test. -/
def meanWindowPass (x : ℚ) : Bool :=
  decide (STATTEST_MIN_MEAN ≤ x ∧ x ≤ STATTEST_MAX_MEAN)

/-- Modelled from the spec: the variance acceptance window test. -/
def varianceWindowPass (x : ℚ) : Bool :=
  decide (STATTEST_MIN_VARIANCE ≤ x ∧ x ≤ STATTEST_MAX_VARIANCE)

/-- Modelled from the spec: the minimum-bandwidth test. -/
def bandwidthPassB (bw : ℚ) : Bool := decide (PSD_MIN_BANDWIDTH ≤ bw)

/-- Modelled from the spec: the Health-Test Decision Engine of statistics.c
(absent from the sources) evaluates all 7 sub-tests of one completed batch
and reports every pass/fail flag in the Verdict; it aggregates and reports,
it never short-circuits. -/
def decisionEngine (m : Measured) : Verdict :=
  ⟨decide (STATTEST_MIN_MEAN ≤ m.mean ∧ m.mean ≤ STATTEST_MAX_MEAN),
   decide (STATTEST_MIN_VARIANCE ≤ m.variance ∧ m.variance ≤ STATTEST_MAX_VARIANCE),
   if m.variance = 0 then false
   else decide (m.skewNum ^ 2 ≤ STATTEST_MAX_SKEWNESS ^ 2 * m.variance ^ 3),
   if m.variance = 0 then false
   else decide (STATTEST_MIN_KURTOSIS ≤ m.kurtosis ∧ m.kurtosis ≤ STATTEST_MAX_KURTOSIS),
   decide (PSD_MIN_PEAK ≤ m.peakFrac ∧ m.peakFrac ≤ PSD_MAX_PEAK),
   m.lowerEdgeFound,
   decide (PSD_MIN_BANDWIDTH ≤ m.bandwidthFrac)⟩

/-- Aggregate verdict: the conjunction of all seven sub-test flags. -/
def aggregatePass (v : Verdict) : Bool :=
  v.meanPass && v.variancePass && v.skewnessPass && v.kurtosisPass &&
    v.peakPass && v.lowerEdgePass && v.bandwidthPass

/-- Claim C10: every acceptance window defined by the TestLimits constants is
nonempty and contains its nominal value, in exact rational arithmetic, and
the spectral fractions lie in the expected sub-Nyquist ranges. -/
theorem testLimits_windows_ordered :
    STATTEST_MIN_MEAN < STATTEST_CENTRAL_MEAN
  ∧ STATTEST_CENTRAL_MEAN < STATTEST_MAX_MEAN
  ∧ STATTEST_MIN_VARIANCE < STATTEST_CENTRAL_VARIANCE
  ∧ STATTEST_CENTRAL_VARIANCE < STATTEST_MAX_VARIANCE
  ∧ STATTEST_MIN_KURTOSIS < 0
  ∧ (0:ℚ) < STATTEST_MAX_KURTOSIS
  ∧ (0:ℚ) < STATTEST_MAX_SKEWNESS
  ∧ (0:ℚ) < PSD_MIN_PEAK
  ∧ PSD_MIN_PEAK < PSD_MAX_PEAK
  ∧ PSD_MAX_PEAK ≤ 0.5
  ∧ (0:ℚ) < PSD_MIN_BANDWIDTH
  ∧ PSD_MIN_BANDWIDTH ≤ 0.5
  ∧ (0:ℚ) < PSD_BANDWIDTH_THRESHOLD
  ∧ PSD_BANDWIDTH_THRESHOLD < 0.5 := by
  refine ⟨?_, ?_, ?_, ?_, ?_, ?_, ?_, ?_, ?_, ?_, ?_, ?_, ?_, ?_⟩ <;>
    norm_num [STATTEST_MIN_MEAN, STATTEST_MAX_MEAN, STATTEST_CENTRAL_MEAN,
      STATTEST_MIN_VARIANCE, STATTEST_MAX_VARIANCE, STATTEST_CENTRAL_VARIANCE,
      STATTEST_MIN_KURTOSIS, STATTEST_MAX_KURTOSIS, STATTEST_MAX_SKEWNESS,
      PSD_MIN_PEAK, PSD_MAX_PEAK, PSD_MIN_BANDWIDTH, PSD_BANDWIDTH_THRESHOLD]

/-- Claim C9 counterexample: the skewness acceptance window is symmetric
about 0 — its endpoints are exactly ±STATTEST_MAX_SKEWNESS = ±0.237 — so the
claim that the skewness window's minimum bound is not the negation of its
maximum bound is false. -/
theorem skewness_window_symmetric_cex :
    skewnessWindowPass (-(237/1000)) = true
  ∧ skewnessWindowPass (-(2371/10000)) = false
  ∧ skewnessWindowPass (237/1000) = true
  ∧ skewnessWindowPass (2371/10000) = false := by
  refine ⟨?_, ?_, ?_, ?_⟩ <;>
    norm_num [skewnessWindowPass, STATTEST_MAX_SKEWNESS]

/-- Claim C9 (amended): the kurtosis acceptance window is asymmetric about 0
(its minimum bound -0.48 is not the negation of its maximum bound 0.65),
while the skewness window is symmetric about 0, a single maximum bound being
applied in both directions. -/
theorem kurtosis_window_asymmetric_skewness_symmetric :
    STATTEST_MIN_KURTOSIS ≠ -STATTEST_MAX_KURTOSIS
  ∧ ∀ x : ℚ, skewnessWindowPass (-x) = skewnessWindowPass x := by
  constructor
  · norm_num [STATTEST_MIN_KURTOSIS, STATTEST_MAX_KURTOSIS]
  · intro x
    unfold skewnessWindowPass
    apply decide_eq_decide.mpr
    constructor
    · rintro ⟨h1, h2⟩
      exact ⟨by linarith, by linarith⟩
    · rintro ⟨h1, h2⟩
      exact ⟨by linarith, by linarith⟩

/-- Claim C9 witness: a concrete instance of the skewness-window symmetry. -/
theorem kurtosis_window_asymmetric_skewness_symmetric_w :
    skewnessWindowPass (-(1:ℚ)) = skewnessWindowPass 1 :=
  kurtosis_window_asymmetric_skewness_symmetric.2 1

theorem foldl_incBin_apply (batch : List Nat) (h : Nat → Nat) (b : Nat) :
    batch.foldl incBin h b = h b + batch.count b := by
  induction batch generalizing h with
  | nil => simp
  | cons x xs ih =>
    rw [List.foldl_cons, ih]
    rcases eq_or_ne b x with rfl | hbx
    · simp [incBin, List.count_cons]
      omega
    · simp [incBin, hbx, List.count_cons]

theorem buildHistogram_apply (batch : List Nat) (b : Nat) :
    buildHistogram batch b = batch.count b := by
  simpa using foldl_incBin_apply batch (fun _ => 0) b

theorem sum_count_eq_length (batch : List Nat) (n : Nat)
    (hin : ∀ x ∈ batch, x < n) :
    ∑ b ∈ Finset.range n, batch.count b = batch.length := by
  induction batch with
  | nil => simp
  | cons x xs ih =>
    have hx : x < n := hin x (by simp)
    have hxs : ∀ y ∈ xs, y < n := fun y hy => hin y (by simp [hy])
    simp only [List.count_cons, List.length_cons, beq_iff_eq]
    rw [Finset.sum_add_distrib, ih hxs,
      Finset.sum_ite_eq (Finset.range n) x (fun _ => 1)]
    simp [Finset.mem_range.mpr hx]

theorem incBin_add_count (h : Nat → Nat) (x b : Nat) (xs : List Nat) :
    incBin h x b + xs.count b = h b + (x :: xs).count b := by
  rcases eq_or_ne b x with rfl | hbx
  · simp [incBin, List.count_cons]
    omega
  · simp [incBin, hbx, List.count_cons]

theorem buildChecked_none_iff (batch : List Nat) :
    ∀ h : Nat → Nat, (∀ b, h b ≤ maxBinCount) →
      (buildChecked batch h = none ↔ ∃ b, maxBinCount < h b + batch.count b) := by
  induction batch with
  | nil =>
    intro h hbound
    simp only [buildChecked, List.count_nil, Nat.add_zero]
    constructor
    · intro hco
      exact absurd hco (by simp)
    · rintro ⟨b, hb⟩
      exact absurd hb (by have := hbound b; omega)
  | cons x xs ih =>
    intro h hbound
    by_cases hx : maxBinCount ≤ h x
    · simp only [buildChecked, if_pos hx]
      constructor
      · intro _
        refine ⟨x, ?_⟩
        have h1 : 1 ≤ (x :: xs).count x := by
          simp [List.count_cons]
        omega
      · intro _
        trivial
    · simp only [buildChecked, if_neg hx]
      have hbound2 : ∀ b, incBin h x b ≤ maxBinCount := by
        intro b
        unfold incBin
        rcases eq_or_ne b x with rfl | hbx
        · simp
          omega
        · simp [hbx]
          exact hbound b
      rw [ih (incBin h x) hbound2]
      constructor
      · rintro ⟨b, hb⟩
        exact ⟨b, by rw [← incBin_add_count h x b xs]; exact hb⟩
      · rintro ⟨b, hb⟩
        exact ⟨b, by rw [incBin_add_count h x b xs]; exact hb⟩

theorem buildChecked_some_apply (batch : List Nat) :
    ∀ h hfin, buildChecked batch h = some hfin → ∀ b, hfin b = h b + batch.count b := by
  induction batch with
  | nil =>
    intro h hfin heq b
    simp only [buildChecked, Option.some_inj] at heq
    subst heq
    simp
  | cons x xs ih =>
    intro h hfin heq b
    by_cases hx : maxBinCount ≤ h x
    · simp [buildChecked, if_pos hx] at heq
    · simp only [buildChecked, if_neg hx] at heq
      rw [ih (incBin h x) hfin heq b, incBin_add_count h x b xs]

/-- Claim C2: after the Histogram Builder has ingested a whole batch of
SAMPLE_COUNT raw samples (each a 10-bit ADC value, hence falling in one of
the HISTOGRAM_NUM_BINS bins), the sum of all HISTOGRAM_NUM_BINS bin counts
equals exactly the batch size SAMPLE_COUNT. -/
theorem histogram_counts_sum_to_batch_size (batch : List Nat)
    (hlen : batch.length = SAMPLE_COUNT)
    (hin : ∀ x ∈ batch, x < HISTOGRAM_NUM_BINS) :
    histSum (buildHistogram batch) = SAMPLE_COUNT := by
  unfold histSum
  rw [Finset.sum_congr rfl fun b _ => buildHistogram_apply batch b,
    sum_count_eq_length batch HISTOGRAM_NUM_BINS hin, hlen]

/-- Claim C2 witness: a concrete batch of 4096 in-range samples. -/
theorem histogram_counts_sum_to_batch_size_w :
    (List.replicate 4096 5).length = SAMPLE_COUNT
  ∧ histSum (buildHistogram (List.replicate 4096 5)) = SAMPLE_COUNT :=
  ⟨by rw [List.length_replicate]; rfl,
   histogram_counts_sum_to_batch_size (List.replicate 4096 5)
     (by rw [List.length_replicate]; rfl)
     (by
       intro x hx
       rw [List.eq_of_mem_replicate hx]
       decide)⟩

/-- Claim C7 counterexample: SAMPLE_COUNT = 4096 exceeds the maximum 11-bit
bin count maxBinCount = 2047, so a batch whose 4096 samples all carry the
same ADC value pushes one bin past its maximum representable count and
reaches the overflow fault branch: that branch is not unreachable by
construction. -/
theorem histogram_bin_overflow_cex :
    maxBinCount < buildHistogram (List.replicate SAMPLE_COUNT 0) 0
  ∧ buildHistogramChecked (List.replicate SAMPLE_COUNT 0) = none := by
  constructor
  · rw [buildHistogram_apply, List.count_replicate_self]
    decide
  · exact (buildChecked_none_iff (List.replicate SAMPLE_COUNT 0)
      (fun _ => 0) (fun _ => Nat.zero_le _)).mpr
      ⟨0, by rw [List.count_replicate_self]; decide⟩

/-- Claim C7 (amended): a histogram bin's final count equals the number of
batch samples carrying that bin's ADC value, so every bin stays within the
11-bit maximum exactly when no single value occurs more than
maxBinCount = 2047 times in the batch; since SAMPLE_COUNT = 4096 > 2047,
this is a property of the batch contents, not guaranteed by construction. -/
theorem histogram_bin_bound (batch : List Nat) (b : Nat)
    (hocc : ∀ v, batch.count v ≤ maxBinCount) :
    buildHistogram batch b ≤ maxBinCount := by
  rw [buildHistogram_apply]
  exact hocc b

/-- Claim C7 witness: the amended bound at a concrete batch. -/
theorem histogram_bin_bound_w :
    buildHistogram [1, 2, 3] 1 ≤ maxBinCount :=
  histogram_bin_bound [1, 2, 3] 1 fun v =>
    le_trans (List.count_le_length v [1, 2, 3])
      (by norm_num [maxBinCount, BITS_PER_HISTOGRAM_BIN])

/-- Claim C8: if incrementing a histogram bin would exceed its maximum
representable count, the checked Histogram Builder reports a fault (none,
aborting the run, distinct from any statistical test verdict), and this
happens exactly when some ADC value occurs more than maxBinCount times;
when no fault is reported every final bin count is exact (equal to the
number of matching samples) and within bounds — never silently wrapped. -/
theorem histogram_overflow_fault_reported (batch : List Nat) :
    (buildHistogramChecked batch = none ↔ ∃ b, maxBinCount < batch.count b)
  ∧ ∀ hfin, buildHistogramChecked batch = some hfin →
      ∀ b, hfin b = batch.count b ∧ hfin b ≤ maxBinCount := by
  constructor
  · have := buildChecked_none_iff batch (fun _ => 0) (fun _ => Nat.zero_le _)
    simpa [buildHistogramChecked] using this
  · intro hfin heq b
    have h1 := buildChecked_some_apply batch (fun _ => 0) hfin heq b
    simp only [Nat.zero_add] at h1
    refine ⟨h1, ?_⟩
    by_contra hgt
    push_neg at hgt
    have hnone : buildHistogramChecked batch = none :=
      (buildChecked_none_iff batch (fun _ => 0) (fun _ => Nat.zero_le _)).mpr
        ⟨b, by simpa [h1] using hgt⟩
    rw [heq] at hnone
    exact absurd hnone (by simp)

/-- Claim C8 witness: a batch with 2048 equal samples drives one bin past the
11-bit maximum and the checked builder reports the fault. -/
theorem histogram_overflow_fault_reported_w :
    buildHistogramChecked (List.replicate 2048 7) = none :=
  (histogram_overflow_fault_reported (List.replicate 2048 7)).1.mpr
    ⟨7, by rw [List.count_replicate_self]; decide⟩

theorem foldl_accumBin (h : Nat → Nat) (n : Nat) (acc : RawSums) :
    (List.range n).foldl (fun a x => accumBin a h x) acc =
      ⟨acc.n + ∑ x ∈ Finset.range n, (h x : ℚ),
       acc.s1 + ∑ x ∈ Finset.range n, (h x : ℚ) * (x : ℚ),
       acc.s2 + ∑ x ∈ Finset.range n, (h x : ℚ) * (x : ℚ) ^ 2,
       acc.s3 + ∑ x ∈ Finset.range n, (h x : ℚ) * (x : ℚ) ^ 3,
       acc.s4 + ∑ x ∈ Finset.range n, (h x : ℚ) * (x : ℚ) ^ 4⟩ := by
  induction n with
  | zero => simp
  | succ m ih =>
    rw [List.range_succ, List.foldl_append, ih]
    simp only [List.foldl_cons, List.foldl_nil, accumBin, Finset.sum_range_succ,
      RawSums.mk.injEq]
    refine ⟨by ring, by ring, by ring, by ring, by ring⟩

theorem rawSums_eq (h : Nat → Nat) :
    rawSums h = ⟨histTotal h, binSum h 1, binSum h 2, binSum h 3, binSum h 4⟩ := by
  unfold rawSums histTotal binSum
  rw [foldl_accumBin h HISTOGRAM_NUM_BINS ⟨0, 0, 0, 0, 0⟩]
  simp [pow_one]

theorem rawSums_n (h : Nat → Nat) : (rawSums h).n = histTotal h := by
  rw [rawSums_eq]

theorem rawSums_s1 (h : Nat → Nat) : (rawSums h).s1 = binSum h 1 := by
  rw [rawSums_eq]

theorem rawSums_s2 (h : Nat → Nat) : (rawSums h).s2 = binSum h 2 := by
  rw [rawSums_eq]

theorem histTotal_singleBin (b n : Nat) (hb : b < HISTOGRAM_NUM_BINS) :
    histTotal (singleBin b n) = n := by
  unfold histTotal singleBin
  have key : ∀ x ∈ Finset.range HISTOGRAM_NUM_BINS,
      ((if x = b then n else 0 : Nat) : ℚ) = if x = b then (n : ℚ) else 0 := by
    intro x _
    rcases eq_or_ne x b with rfl | hxb
    · simp
    · simp [hxb]
  rw [Finset.sum_congr rfl key,
    Finset.sum_ite_eq' (Finset.range HISTOGRAM_NUM_BINS) b (fun _ => (n : ℚ)),
    if_pos (Finset.mem_range.mpr hb)]

theorem binSum_singleBin (b n k : Nat) (hb : b < HISTOGRAM_NUM_BINS) :
    binSum (singleBin b n) k = (n : ℚ) * (b : ℚ) ^ k := by
  unfold binSum singleBin
  have key : ∀ x ∈ Finset.range HISTOGRAM_NUM_BINS,
      ((if x = b then n else 0 : Nat) : ℚ) * (x : ℚ) ^ k
        = if x = b then (n : ℚ) * (b : ℚ) ^ k else 0 := by
    intro x _
    rcases eq_or_ne x b with rfl | hxb
    · simp
    · simp [hxb]
  rw [Finset.sum_congr rfl key,
    Finset.sum_ite_eq' (Finset.range HISTOGRAM_NUM_BINS) b
      (fun _ => (n : ℚ) * (b : ℚ) ^ k),
    if_pos (Finset.mem_range.mpr hb)]

/-- Claim C1: the Moment Statistics Engine derives the four moments from the
accumulated power sums exactly by the stated formulas: mean = Σx/N,
variance = Σx²/N − mean², skewness = (Σx³/N − 3·mean·Σx²/N + 2·mean³)
divided by variance^(3/2), and excess kurtosis =
(Σx⁴/N − 4·mean·Σx³/N + 6·mean²·Σx²/N − 3·mean⁴)/variance² − 3, in the
exact rational model that stands in for fixed point (so "up to fixed-point
rounding" the equalities are exact). -/
theorem moment_engine_formulas (h : Nat → Nat) (hN : histTotal h ≠ 0) :
    momMean h = binSum h 1 / histTotal h
  ∧ momVariance h = binSum h 2 / histTotal h - momMean h ^ 2
  ∧ ((momSkewNum h : ℝ) / Real.sqrt (momVariance h) ^ 3
      = ((binSum h 3 / histTotal h - 3 * momMean h * (binSum h 2 / histTotal h)
          + 2 * momMean h ^ 3 : ℚ) : ℝ) / Real.sqrt (momVariance h) ^ 3)
  ∧ momKurtosis h = (binSum h 4 / histTotal h
      - 4 * momMean h * (binSum h 3 / histTotal h)
      + 6 * momMean h ^ 2 * (binSum h 2 / histTotal h)
      - 3 * momMean h ^ 4) / momVariance h ^ 2 - 3 := by
  have hr := rawSums_eq h
  refine ⟨?_, ?_, ?_, ?_⟩
  · unfold momMean
    rw [hr]
  · unfold momVariance momMean
    rw [hr]
  · unfold momSkewNum momMean
    rw [hr]
  · unfold momKurtosis momVariance momMean
    rw [hr]

/-- Claim C1 witness: the engine formulas at a concrete histogram with
nonzero total count. -/
theorem moment_engine_formulas_w :
    histTotal (singleBin 0 4096) ≠ 0
  ∧ momMean (singleBin 0 4096)
      = binSum (singleBin 0 4096) 1 / histTotal (singleBin 0 4096) :=
  ⟨by rw [histTotal_singleBin 0 4096 (by decide)]; norm_num,
   (moment_engine_formulas (singleBin 0 4096)
     (by rw [histTotal_singleBin 0 4096 (by decide)]; norm_num)).1⟩

/-- Claim C3: for a histogram whose samples all fall in a single bin the
variance is zero, and the skewness and kurtosis sub-tests are reported as
failed by the degenerate-variance guard, without performing the division by
variance; they are never reported as computed finite values. -/
theorem degenerate_variance_guard (b n : Nat)
    (hb : b < HISTOGRAM_NUM_BINS) (hn : n ≠ 0) :
    momVariance (singleBin b n) = 0
  ∧ skewnessPassB (momVariance (singleBin b n)) (momSkewNum (singleBin b n)) = false
  ∧ kurtosisPassB (momVariance (singleBin b n)) (momKurtosis (singleBin b n)) = false := by
  have hvar : momVariance (singleBin b n) = 0 := by
    have hn' : (n : ℚ) ≠ 0 := Nat.cast_ne_zero.mpr hn
    unfold momVariance momMean
    rw [rawSums_n, rawSums_s1, rawSums_s2, histTotal_singleBin b n hb,
      binSum_singleBin b n 1 hb, binSum_singleBin b n 2 hb]
    field_simp
  exact ⟨hvar, by simp [skewnessPassB, hvar], by simp [kurtosisPassB, hvar]⟩

/-- Claim C3 witness: the degenerate guard at a concrete single-bin
histogram. -/
theorem degenerate_variance_guard_w :
    momVariance (singleBin 0 4096) = 0
  ∧ skewnessPassB (momVariance (singleBin 0 4096)) (momSkewNum (singleBin 0 4096)) = false :=
  ⟨(degenerate_variance_guard 0 4096 (by decide) (by decide)).1,
   (degenerate_variance_guard 0 4096 (by decide) (by decide)).2.1⟩

theorem findEdgeAux_spec (s : Nat → Bool) :
    ∀ fuel i,
      (findEdgeAux s fuel i = i + fuel ∧
        ∀ m, i ≤ m → m < i + fuel → runBelow s m PSD_THRESHOLD_REPETITIONS = false)
    ∨ (i ≤ findEdgeAux s fuel i ∧ findEdgeAux s fuel i < i + fuel ∧
        runBelow s (findEdgeAux s fuel i) PSD_THRESHOLD_REPETITIONS = true ∧
        ∀ m, i ≤ m → m < findEdgeAux s fuel i →
          runBelow s m PSD_THRESHOLD_REPETITIONS = false) := by
  intro fuel
  induction fuel with
  | zero =>
    intro i
    left
    exact ⟨rfl, fun m hm1 hm2 => absurd hm2 (by omega)⟩
  | succ f ih =>
    intro i
    by_cases hrun : runBelow s i PSD_THRESHOLD_REPETITIONS = true
    · right
      have hfe : findEdgeAux s (f + 1) i = i := by
        unfold findEdgeAux
        rw [if_pos hrun]
      rw [hfe]
      exact ⟨le_refl i, by omega, hrun, fun m hm1 hm2 => absurd hm2 (by omega)⟩
    · have hrunf : runBelow s i PSD_THRESHOLD_REPETITIONS = false := by
        cases hco : runBelow s i PSD_THRESHOLD_REPETITIONS
        · rfl
        · exact absurd hco hrun
      have hfe : findEdgeAux s (f + 1) i = findEdgeAux s f (i + 1) := by
        show (if runBelow s i PSD_THRESHOLD_REPETITIONS then i else findEdgeAux s f (i + 1))
          = findEdgeAux s f (i + 1)
        rw [if_neg hrun]
      rcases ih (i + 1) with ⟨ha, hb⟩ | ⟨ha, hb, hc, hd⟩
      · left
        constructor
        · rw [hfe, ha]
          omega
        · intro m hm1 hm2
          rcases eq_or_lt_of_le hm1 with rfl | hlt
          · exact hrunf
          · exact hb m (by omega) (by omega)
      · right
        rw [hfe]
        refine ⟨by omega, by omega, hc, ?_⟩
        intro m hm1 hm2
        rcases eq_or_lt_of_le hm1 with rfl | hlt
        · exact hrunf
        · exact hd m (by omega) (by omega)

/-- Claim C4: in the bandwidth walk outward from the peak, a bin of the
region [start, bound) is registered as a band edge iff it is the first bin
starting a run of PSD_THRESHOLD_REPETITIONS consecutive bins all below
PSD_BANDWIDTH_THRESHOLD relative to the peak; when no such run exists before
the spectrum boundary, the edge is clamped to the boundary (never an error);
and a bin whose successor is back above threshold (an isolated dip) is never
registered as an edge. -/
theorem bandwidth_edge_debounce (psd : Nat → ℚ) (peakVal : ℚ)
    (start bound : Nat) (hsb : start ≤ bound) :
    (∀ j, start ≤ j → j < bound →
      (findEdge (belowThresholdB psd peakVal) start bound = j ↔
        runBelow (belowThresholdB psd peakVal) j PSD_THRESHOLD_REPETITIONS = true ∧
          ∀ m, start ≤ m → m < j →
            runBelow (belowThresholdB psd peakVal) m PSD_THRESHOLD_REPETITIONS = false))
  ∧ ((∀ m, start ≤ m → m < bound →
        runBelow (belowThresholdB psd peakVal) m PSD_THRESHOLD_REPETITIONS = false) →
      findEdge (belowThresholdB psd peakVal) start bound = bound)
  ∧ (∀ j, start ≤ j → j < bound → belowThresholdB psd peakVal (j + 1) = false →
      findEdge (belowThresholdB psd peakVal) start bound ≠ j) := by
  set s := belowThresholdB psd peakVal with hs
  have hfe : findEdge s start bound = findEdgeAux s (bound - start) start := rfl
  have hspec := findEdgeAux_spec s (bound - start) start
  have hsum : start + (bound - start) = bound := by omega
  rw [hsum] at hspec
  have main : ∀ j, start ≤ j → j < bound →
      (findEdge s start bound = j ↔
        runBelow s j PSD_THRESHOLD_REPETITIONS = true ∧
          ∀ m, start ≤ m → m < j → runBelow s m PSD_THRESHOLD_REPETITIONS = false) := by
    intro j hj1 hj2
    rw [hfe]
    constructor
    · intro hrj
      rcases hspec with ⟨ha, _⟩ | ⟨_, _, hc, hd⟩
      · omega
      · rw [hrj] at hc hd
        exact ⟨hc, hd⟩
    · rintro ⟨hrun, hmin⟩
      rcases hspec with ⟨ha, hb⟩ | ⟨ha, hb, hc, hd⟩
      · exact absurd hrun (by simp [hb j hj1 hj2])
      · rcases lt_trichotomy j (findEdgeAux s (bound - start) start) with hlt | heq | hgt
        · exact absurd hrun (by simp [hd j hj1 hlt])
        · exact heq.symm
        · exact absurd hc (by simp [hmin (findEdgeAux s (bound - start) start) (by omega) hgt])
  refine ⟨main, ?_, ?_⟩
  · intro hall
    rw [hfe]
    rcases hspec with ⟨ha, _⟩ | ⟨ha, hb, hc, _⟩
    · exact ha
    · exact absurd hc (by simp [hall (findEdgeAux s (bound - start) start) ha hb])
  · intro j hj1 hj2 hnext heq
    have hchar := (main j hj1 hj2).mp heq
    have h5 : runBelow s j PSD_THRESHOLD_REPETITIONS
        = (s j && (s (j + 1) && (s (j + 2) && (s (j + 3) && (s (j + 4) && true))))) := rfl
    have hrb : runBelow s j PSD_THRESHOLD_REPETITIONS = false := by
      rw [h5, hnext]
      simp
    rw [hchar.1] at hrb
    cases hrb

/-- Claim C4 witness: the clamping clause at a concrete flat spectrum (no
bin below threshold, so no run exists and the edge is the boundary). -/
theorem bandwidth_edge_debounce_w :
    (0 : Nat) ≤ 8
  ∧ ((∀ m, 0 ≤ m → m < 8 →
        runBelow (belowThresholdB (fun _ => (1:ℚ)) 1) m PSD_THRESHOLD_REPETITIONS = false) →
      findEdge (belowThresholdB (fun _ => (1:ℚ)) 1) 0 8 = 8) :=
  ⟨by decide, (bandwidth_edge_debounce (fun _ => (1:ℚ)) 1 0 8 (by decide)).2.1⟩

theorem foldl_peakStep (psd : Nat → ℚ) (L : List Nat) :
    ∀ b : Nat,
      psd b ≤ psd (L.foldl (fun best i => if psd best < psd i then i else best) b)
    ∧ (∀ j ∈ L, psd j ≤ psd (L.foldl (fun best i => if psd best < psd i then i else best) b))
    ∧ (L.foldl (fun best i => if psd best < psd i then i else best) b = b
        ∨ L.foldl (fun best i => if psd best < psd i then i else best) b ∈ L) := by
  induction L with
  | nil =>
    intro b
    simp
  | cons x xs ih =>
    intro b
    simp only [List.foldl_cons]
    obtain ⟨h1, h2, h3⟩ := ih (if psd b < psd x then x else b)
    have hbb2 : psd b ≤ psd (if psd b < psd x then x else b) := by
      by_cases hcmp : psd b < psd x
      · simpa [hcmp] using le_of_lt hcmp
      · simp [hcmp]
    have hxb2 : psd x ≤ psd (if psd b < psd x then x else b) := by
      by_cases hcmp : psd b < psd x
      · simp [hcmp]
      · simpa [hcmp] using le_of_not_lt hcmp
    refine ⟨le_trans hbb2 h1, ?_, ?_⟩
    · intro j hj
      rcases List.mem_cons.mp hj with rfl | hj2
      · exact le_trans hxb2 h1
      · exact h2 j hj2
    · rcases h3 with he | hm
      · rw [he]
        by_cases hcmp : psd b < psd x
        · rw [if_pos hcmp]
          right
          exact List.mem_cons_self x xs
        · rw [if_neg hcmp]
          left
          rfl
      · right
        exact List.mem_cons_of_mem x hm

/-- Claim C5: the located peak bin is a valid index holding the maximum
magnitude of the spectrum, and the peak sub-test passes iff the frequency
fraction of that maximum-magnitude bin lies in the closed interval
[PSD_MIN_PEAK, PSD_MAX_PEAK]. -/
theorem peak_test_window (psd : Nat → ℚ) (numBins : Nat) (hpos : 0 < numBins) :
    peakIndex psd numBins < numBins
  ∧ (∀ j, j < numBins → psd j ≤ psd (peakIndex psd numBins))
  ∧ (peakTest psd numBins = true ↔
      PSD_MIN_PEAK ≤ freqFrac (peakIndex psd numBins) numBins
        ∧ freqFrac (peakIndex psd numBins) numBins ≤ PSD_MAX_PEAK) := by
  have hpk : peakIndex psd numBins
      = (List.range numBins).foldl (fun best i => if psd best < psd i then i else best) 0 := rfl
  obtain ⟨h1, h2, h3⟩ := foldl_peakStep psd (List.range numBins) 0
  refine ⟨?_, ?_, ?_⟩
  · rcases h3 with he | hm
    · rw [hpk, he]
      exact hpos
    · rw [hpk]
      exact List.mem_range.mp hm
  · intro j hj
    rw [hpk]
    exact h2 j (List.mem_range.mpr hj)
  · unfold peakTest peakWindowPass
    exact decide_eq_true_iff

/-- Claim C5 witness: the peak locator at a concrete small spectrum. -/
theorem peak_test_window_w :
    (0 : Nat) < 4 ∧ peakIndex (fun i => (i : ℚ)) 4 < 4 :=
  ⟨by decide, (peak_test_window (fun i => (i : ℚ)) 4 (by decide)).1⟩

/-- Claim C6: the Decision Engine evaluates and reports a pass/fail flag for
every one of the 7 sub-tests of a completed batch; each flag is a function
of its own statistic alone (skewness and kurtosis additionally of the
variance, through the degenerate guard), so the failure of any sub-test
never prevents the remaining sub-tests from being evaluated and included in
the Verdict: changing any other statistic (even to a failing value) leaves
the flag unchanged, and the aggregate is the conjunction of all seven
flags. -/
theorem decision_engine_reports_all_subtests (a b : Measured) :
    (decisionEngine a =
      ⟨meanWindowPass a.mean, varianceWindowPass a.variance,
       skewnessPassB a.variance a.skewNum, kurtosisPassB a.variance a.kurtosis,
       peakWindowPass a.peakFrac, a.lowerEdgeFound, bandwidthPassB a.bandwidthFrac⟩)
  ∧ aggregatePass (decisionEngine a) =
      (meanWindowPass a.mean && varianceWindowPass a.variance &&
       skewnessPassB a.variance a.skewNum && kurtosisPassB a.variance a.kurtosis &&
       peakWindowPass a.peakFrac && a.lowerEdgeFound && bandwidthPassB a.bandwidthFrac)
  ∧ (a.mean = b.mean →
      (decisionEngine a).meanPass = (decisionEngine b).meanPass)
  ∧ (a.variance = b.variance →
      (decisionEngine a).variancePass = (decisionEngine b).variancePass)
  ∧ (a.variance = b.variance → a.skewNum = b.skewNum →
      (decisionEngine a).skewnessPass = (decisionEngine b).skewnessPass)
  ∧ (a.variance = b.variance → a.kurtosis = b.kurtosis →
      (decisionEngine a).kurtosisPass = (decisionEngine b).kurtosisPass)
  ∧ (a.peakFrac = b.peakFrac →
      (decisionEngine a).peakPass = (decisionEngine b).peakPass)
  ∧ (a.lowerEdgeFound = b.lowerEdgeFound →
      (decisionEngine a).lowerEdgePass = (decisionEngine b).lowerEdgePass)
  ∧ (a.bandwidthFrac = b.bandwidthFrac →
      (decisionEngine a).bandwidthPass = (decisionEngine b).bandwidthPass) := by
  refine ⟨rfl, rfl, ?_, ?_, ?_, ?_, ?_, ?_, ?_⟩
  · intro h
    show meanWindowPass a.mean = meanWindowPass b.mean
    rw [h]
  · intro h
    show varianceWindowPass a.variance = varianceWindowPass b.variance
    rw [h]
  · intro h1 h2
    show skewnessPassB a.variance a.skewNum = skewnessPassB b.variance b.skewNum
    rw [h1, h2]
  · intro h1 h2
    show kurtosisPassB a.variance a.kurtosis = kurtosisPassB b.variance b.kurtosis
    rw [h1, h2]
  · intro h
    show peakWindowPass a.peakFrac = peakWindowPass b.peakFrac
    rw [h]
  · intro h
    exact h
  · intro h
    show bandwidthPassB a.bandwidthFrac = bandwidthPassB b.bandwidthFrac
    rw [h]

/-- Claim C6 witness: two concrete measurement sets sharing only the mean
(the second failing several other sub-tests) receive the same mean flag. -/
theorem decision_engine_reports_all_subtests_w :
    (decisionEngine ⟨0, 0, 0, 0, 0, true, 0⟩).meanPass
      = (decisionEngine ⟨0, 1, 2, 3, 4, false, 5⟩).meanPass :=
  (decision_engine_reports_all_subtests ⟨0, 0, 0, 0, 0, true, 0⟩
    ⟨0, 1, 2, 3, 4, false, 5⟩).2.2.1 rfl
